import Mathlib

/-!
Verification of the nodecode/decodeless header directory and linear arena
allocator.  The definitions below are a shallow embedding of
`src/include/nodecode/header.hpp`, `src/include/decodeless/header.hpp` and
`src/include/nodecode/allocate.hpp`.  The two header variants (`nodecode` and
`decodeless`) are byte-for-byte identical in the logic modelled here (the
`decodeless` variant additionally has `findSupported`); a single embedding
covers both, using the `decodeless` field names.

Machine integers are modelled as `Nat`.  `uintptr_t` wrap-around is made
explicit with `% 2^64` exactly where the C++ computes a two's-complement
negation; a `Magic` is the list of its 16 bytes (each a `Nat` below 256,
zero-padded), compared lexicographically exactly as `std::string` comparison
of `char` data does (bytewise, as unsigned values).
-/

namespace Decodeless

/-- A `Magic` is the 16-byte identifier array `std::array<char, 16>`,
modelled as the list of its byte values (zero padded to length 16 by the
constructor; the comparison logic itself is length-generic). -/
abbrev Magic := List Nat

/-- Lexicographic strict order on byte strings: the embedding of
`Magic::operator<`, which compares via `std::string(begin, end) <
std::string(other.begin, other.end)`, i.e. bytewise lexicographic
comparison with a shorter strict prefix ordered first. -/
def magicLt : Magic → Magic → Bool
  | [], [] => false
  | [], _ :: _ => true
  | _ :: _, [] => false
  | a :: as, b :: bs => if a < b then true else if b < a then false else magicLt as bs

/-- Embedding of `struct Version`: a `{major, minor, patch}` triple of
`uint32_t` (no arithmetic is ever performed on the fields, only equality
and order comparisons, so plain `Nat` fields are faithful). -/
structure Version where
  major : Nat
  minor : Nat
  patch : Nat
  deriving DecidableEq, Repr

/-- Embedding of `Version::InvalidValue = 0xffffffff`. -/
def Version.InvalidValue : Nat := 0xffffffff

/-- The default-constructed `Version`, all fields `InvalidValue`: the
"absent/invalid" sentinel. -/
def Version.invalid : Version :=
  ⟨Version.InvalidValue, Version.InvalidValue, Version.InvalidValue⟩

/-- Embedding of `Version::binaryCompatible(supported, loaded)`:
`loaded.major != InvalidValue && supported.major == loaded.major &&
supported.minor >= loaded.minor`. -/
def Version.binaryCompatible (supported loaded : Version) : Bool :=
  (loaded.major != Version.InvalidValue) &&
  (supported.major == loaded.major) &&
  decide (supported.minor ≥ loaded.minor)

/-- Embedding of the constant `VersionSupported{0, 1, 0}` (identical in the
`nodecode` namespace and as `RootHeader::VersionSupported` in the
`decodeless` namespace). -/
def VersionSupported : Version := ⟨0, 1, 0⟩

/-- The platform a process runs on, as observed by the `PlatformBits`
constructor: the value of `sizeof(size_t)` and which of
`std::endian::native == std::endian::big / little` hold. -/
structure Platform where
  sizeofSizeT : Nat
  endianBig : Bool
  endianLittle : Bool
  deriving DecidableEq, Repr

/-- Embedding of the `PlatformBits` constructor: a `std::bitset<64>` whose
bits `ePlatformX32 = 0`, `ePlatformX64 = 1`, `ePlatformEndianBig = 2`,
`ePlatformEndianLittle = 3` are set from the running process, all other
bits zero.  The bitset value is modelled as the natural number whose binary
digits are the bits. -/
def PlatformBits.compute (p : Platform) : Nat :=
  (if p.sizeofSizeT = 4 then 2 ^ 0 else 0) +
  (if p.sizeofSizeT = 8 then 2 ^ 1 else 0) +
  (if p.endianBig then 2 ^ 2 else 0) +
  (if p.endianLittle then 2 ^ 3 else 0)

/-- Embedding of `struct Header`, the common prefix of every directory
entry: `{identifier : Magic, version : Version, gitHash : GitHash}`.  The
40-byte `GitHash` is opaque diagnostic data, modelled as its byte list. -/
structure Header where
  identifier : Magic
  version : Version
  gitHash : List Nat
  deriving DecidableEq, Repr

/-- A directory entry `offset_ptr<Header>`: the address the pointer
resolves to (`get()`), together with the pointed-to `Header` (`operator->`
dereferences to it). -/
structure HeaderPtr where
  addr : Nat
  hdr : Header
  deriving DecidableEq, Repr

instance : Inhabited HeaderPtr := ⟨0, [], Version.invalid, []⟩

/-- Embedding of `RootHeader::DecodelessMagic{"DECODELESS->FILE"}` (the
`nodecode` variant's `NodecodeMagic{"NODECODE FILE>>>"}` plays the same
role), as the 16 byte values of the string. -/
def DecodelessMagic : Magic :=
  [68, 69, 67, 79, 68, 69, 76, 69, 83, 83, 45, 62, 70, 73, 76, 69]

/-- Embedding of `struct RootHeader`: the caller's identifier, the stored
framework magic and version, the stored platform fingerprint (the raw
bitset value), and the `headers` directory
(`offset_span<offset_ptr<Header>>`, modelled as the list of its
entries). -/
structure RootHeader where
  identifier : Magic
  decodelessMagic : Magic
  decodelessVersion : Version
  platformBits : Nat
  headers : List HeaderPtr
  deriving DecidableEq, Repr

/-- Loop body of `std::lower_bound(first, last, value, comp)` over the
directory, as implemented by the standard library: binary search keeping a
current `first` index and a remaining `len`, probing `middle = first +
len/2` and comparing `comp((*middle)->identifier, value)`, i.e.
`magicLt`.  The loop runs at most `len` iterations (each iteration
strictly shrinks `len`), so structural recursion on a `fuel` counter
initialised to `len` never reaches the out-of-fuel base case. -/
def lowerBoundAux (hs : List HeaderPtr) (target : Magic) :
    Nat → Nat → Nat → Nat
  | 0, first, _ => first
  | fuel + 1, first, len =>
    if len = 0 then first
    else
      let half := len / 2
      let middle := first + half
      if magicLt ((hs.getD middle default).hdr.identifier) target then
        lowerBoundAux hs target fuel (middle + 1) (len - half - 1)
      else
        lowerBoundAux hs target fuel first half

/-- Embedding of `std::lower_bound(headers.begin(), headers.end(),
headerIdentifier, HeaderPtrComp())`: the index of the first entry `e` (in
a sorted directory) with `¬ magicLt e.hdr.identifier target`, or the
directory length if every entry is below `target`. -/
def lowerBound (hs : List HeaderPtr) (target : Magic) (first len : Nat) : Nat :=
  lowerBoundAux hs target len first len

/-- Embedding of `RootHeader::find<HeaderType>()` with
`target = HeaderType::HeaderIdentifier`: linear `std::find_if` over the
directory when it holds fewer than 16 entries, otherwise
`std::lower_bound` by identifier followed by the not-found check
`result != end && (*result)->identifier != target`; returns the located
entry (the C++ returns `result->get()`, the entry's address) or null. -/
def RootHeader.find (h : RootHeader) (target : Magic) : Option HeaderPtr :=
  if h.headers.length < 16 then
    h.headers.find? (fun p => p.hdr.identifier == target)
  else
    let i := lowerBound h.headers target 0 h.headers.length
    match h.headers[i]? with
    | none => none
    | some p => if p.hdr.identifier == target then some p else none

/-- Embedding of `RootHeader::findSupported<HeaderType>()` with
`target = HeaderType::HeaderIdentifier` and
`versionSupported = HeaderType::VersionSupported`:
`result && Version::binaryCompatible(versionSupported, result->version) ?
result : nullptr`. -/
def RootHeader.findSupported (h : RootHeader) (target : Magic)
    (versionSupported : Version) : Option HeaderPtr :=
  match h.find target with
  | none => none
  | some p =>
      if Version.binaryCompatible versionSupported p.hdr.version then some p else none

/-- Embedding of `RootHeader::magicValid()`:
`decodelessMagic == DecodelessMagic` (exact byte equality). -/
def RootHeader.magicValid (h : RootHeader) : Bool :=
  h.decodelessMagic == DecodelessMagic

/-- Embedding of `RootHeader::binaryCompatible()`:
`Version::binaryCompatible(VersionSupported, decodelessVersion) &&
platformBits == PlatformBits()`, the second conjunct comparing the stored
fingerprint with the one freshly computed on the current platform. -/
def RootHeader.binaryCompatible (h : RootHeader) (current : Platform) : Bool :=
  Version.binaryCompatible VersionSupported h.decodelessVersion &&
  (h.platformBits == PlatformBits.compute current)

/-- Mutation helper for the magic-corruption scenario
(`rootHeader.decodelessMagic[i] = b`): overwrite byte `i` of the stored
framework magic, leaving every other field alone. -/
def RootHeader.setMagicByte (h : RootHeader) (i b : Nat) : RootHeader :=
  { h with decodelessMagic := h.decodelessMagic.set i b }

/-- Embedding of `class linear_memory_resource` state: `m_begin` (the
parent allocation's address), the bump cursor `m_next` and the capacity
limit `m_end`, all `uintptr_t` values modelled as `Nat`. -/
structure linear_memory_resource where
  mBegin : Nat
  mNext : Nat
  mEnd : Nat
  deriving DecidableEq, Repr

namespace linear_memory_resource

/-- Embedding of the constructor
`linear_memory_resource(initialSize, parentAllocator)` where the parent's
`allocate(initialSize)` returned address `base`: `m_begin = base`,
`m_next = base`, `m_end = base + initialSize`. -/
def construct (base initialSize : Nat) : linear_memory_resource :=
  ⟨base, base, base + initialSize⟩

/-- Embedding of `linear_memory_resource::allocate(bytes, align)`,
including the overflow branch.  `reallocResult = none` models a parent
allocator without `reallocate()` (the `if constexpr` else-branch, e.g.
`std::allocator` or the test's `NullAllocator`); `reallocResult = some a`
models `m_parentAllocator.reallocate(m_begin, 2 * bytesReserved())`
returning address `a`.  The C++ first computes
`result = m_next + ((-m_next) & (align - 1))` (two's-complement negation
of the `uintptr_t` cursor, hence the explicit `% 2^64`), then stores
`m_next = result + bytes`, and only then checks `m_next > m_end`; on
overflow it throws `std::bad_alloc` (modelled as a `none` result) with the
already-advanced cursor left in place, and `m_begin`/`m_end` are never
written. -/
def allocateGrow (s : linear_memory_resource) (bytes align : Nat)
    (reallocResult : Option Nat) : Option Nat × linear_memory_resource :=
  let result := s.mNext + (((2 ^ 64 - s.mNext % 2 ^ 64) % 2 ^ 64) &&& (align - 1))
  let s' := { s with mNext := result + bytes }
  if result + bytes > s.mEnd then
    match reallocResult with
    | none => (none, s')
    | some addr => if addr = s.mBegin then (some result, s') else (none, s')
  else
    (some result, s')

/-- Embedding of `allocate` as instantiated with a non-reallocating parent allocator
(`std::allocator<std::byte>` or the test suite's `NullAllocator`): the
`if constexpr (CanReallocate<ParentAllocator>)` branch is not taken. -/
def allocate (s : linear_memory_resource) (bytes align : Nat) :
    Option Nat × linear_memory_resource :=
  allocateGrow s bytes align none

/-- Embedding of `linear_memory_resource::deallocate(p, bytes)`: the body
is `(void)p; (void)bytes;` — nothing is modified. -/
def deallocate (s : linear_memory_resource) (p bytes : Nat) : linear_memory_resource :=
  let _ := p
  let _ := bytes
  s

/-- Embedding of `bytesAllocated()`: `m_next - m_begin`. -/
def bytesAllocated (s : linear_memory_resource) : Nat := s.mNext - s.mBegin

/-- Embedding of `bytesReserved()`: `m_end - m_begin`. -/
def bytesReserved (s : linear_memory_resource) : Nat := s.mEnd - s.mBegin

/-- Embedding of `reset()`: `m_next = m_begin`. -/
def reset (s : linear_memory_resource) : linear_memory_resource :=
  { s with mNext := s.mBegin }

/-- Embedding of `arena()`: returns `m_begin`. -/
def arena (s : linear_memory_resource) : Nat := s.mBegin

/-- Run a sequence of `allocate(bytes, align)` calls in order, recording
for each call the returned address (null on `std::bad_alloc`) and the
value of `bytesAllocated()` immediately after the call, together with the
final resource state. -/
def runCalls (s : linear_memory_resource) :
    List (Nat × Nat) → List (Option Nat × Nat) × linear_memory_resource
  | [] => ([], s)
  | (bytes, align) :: rest =>
      let r := allocate s bytes align
      let t := runCalls r.2 rest
      ((r.1, bytesAllocated r.2) :: t.1, t.2)

end linear_memory_resource

/-- Embedding of `linear_allocator<T>::deallocate(p, n)`: forwards to
`m_resource.deallocate(static_cast<void*>(p), n)`. -/
def linear_allocator.deallocate (s : linear_memory_resource) (p n : Nat) :
    linear_memory_resource :=
  linear_memory_resource.deallocate s p n

/-- Concrete directory entry used by the witnesses: a sub-header at
address `100 + n` whose identifier is the single byte `n` and whose stored
version is `1.0.0`. -/
def sampleEntry (n : Nat) : HeaderPtr :=
  ⟨100 + n, ⟨[n], ⟨1, 0, 0⟩, []⟩⟩

/-- A 16-entry directory (the binary-search regime's lower boundary),
sorted ascending by identifier with pairwise distinct identifiers. -/
def sampleDirectory : List HeaderPtr :=
  [sampleEntry 1, sampleEntry 2, sampleEntry 3, sampleEntry 4,
   sampleEntry 5, sampleEntry 6, sampleEntry 7, sampleEntry 8,
   sampleEntry 9, sampleEntry 10, sampleEntry 11, sampleEntry 12,
   sampleEntry 13, sampleEntry 14, sampleEntry 15, sampleEntry 16]

/-- A concrete platform: 64-bit word size, little endian.  Its computed
`PlatformBits` value is `2^1 + 2^3 = 10`. -/
def samplePlatform : Platform := ⟨8, false, true⟩

/-- A concrete, valid root header over `sampleDirectory`, written on
`samplePlatform`. -/
def sampleRoot : RootHeader :=
  ⟨[], DecodelessMagic, VersionSupported, 10, sampleDirectory⟩

/-- A three-entry directory root header (linear-scan regime). -/
def sampleRootSmall : RootHeader :=
  ⟨[], DecodelessMagic, VersionSupported, 10, [sampleEntry 1, sampleEntry 2, sampleEntry 3]⟩

end Decodeless

namespace Decodeless

/-! Helper lemmas about the lexicographic identifier order. -/

theorem magicLt_irrefl (a : Magic) : magicLt a a = false := by
  induction a with
  | nil => rfl
  | cons x xs ih => simp [magicLt, ih]

theorem magicLt_trans : ∀ {a b c : Magic},
    magicLt a b = true → magicLt b c = true → magicLt a c = true
  | [], [], _, h1, _ => by simp [magicLt] at h1
  | [], _ :: _, [], _, h2 => by simp [magicLt] at h2
  | [], _ :: _, _ :: _, _, _ => rfl
  | _ :: _, [], _, h1, _ => by simp [magicLt] at h1
  | _ :: _, _ :: _, [], _, h2 => by simp [magicLt] at h2
  | a :: as, b :: bs, c :: cs, h1, h2 => by
      rcases Nat.lt_trichotomy a b with hab | hab | hab
      · rcases Nat.lt_trichotomy b c with hbc | hbc | hbc
        · simp [magicLt, Nat.lt_trans hab hbc]
        · subst hbc
          simp [magicLt, hab]
        · simp [magicLt, hbc, Nat.lt_asymm hbc] at h2
      · subst hab
        simp only [magicLt, Nat.lt_irrefl, if_false] at h1
        rcases Nat.lt_trichotomy a c with hac | hac | hac
        · simp [magicLt, hac]
        · subst hac
          simp only [magicLt, Nat.lt_irrefl, if_false] at h2 ⊢
          exact magicLt_trans h1 h2
        · simp [magicLt, hac, Nat.lt_asymm hac] at h2
      · simp [magicLt, hab, Nat.lt_asymm hab] at h1

theorem magicLt_eq_of_not : ∀ {a b : Magic},
    magicLt a b = false → magicLt b a = false → a = b
  | [], [], _, _ => rfl
  | [], _ :: _, h1, _ => by simp [magicLt] at h1
  | _ :: _, [], _, h2 => by simp [magicLt] at h2
  | a :: as, b :: bs, h1, h2 => by
      rcases Nat.lt_trichotomy a b with hab | hab | hab
      · simp [magicLt, hab] at h1
      · subst hab
        simp only [magicLt, Nat.lt_irrefl, if_false] at h1 h2
        simp [magicLt_eq_of_not h1 h2]
      · simp [magicLt, hab] at h2

theorem magicLt_ne {a b : Magic} (h : magicLt a b = true) : a ≠ b := by
  intro heq
  rw [heq, magicLt_irrefl] at h
  exact Bool.false_ne_true h

end Decodeless

namespace Decodeless

/-- In a directory sorted strictly ascending by identifier, the predicate
"identifier is below `target`" has a partition point: every entry before
it satisfies the predicate and no entry from it on does. -/
theorem exists_partition (hs : List HeaderPtr) (target : Magic)
    (hsort : hs.Pairwise (fun a b => magicLt a.hdr.identifier b.hdr.identifier = true)) :
    ∃ k, k ≤ hs.length ∧
      (∀ i (hi : i < hs.length), i < k → magicLt hs[i].hdr.identifier target = true) ∧
      (∀ i (hi : i < hs.length), k ≤ i → magicLt hs[i].hdr.identifier target = false) := by
  induction hs with
  | nil => exact ⟨0, by simp, by simp, by simp⟩
  | cons x rest ih =>
      rw [List.pairwise_cons] at hsort
      obtain ⟨hx, hrest⟩ := hsort
      cases hP : magicLt x.hdr.identifier target with
      | true =>
          obtain ⟨k, hk, hbelow, habove⟩ := ih hrest
          refine ⟨k + 1, by simpa using hk, ?_, ?_⟩
          · intro i hi hik
            cases i with
            | zero => simpa using hP
            | succ j =>
                have hj : j < rest.length := by simpa using hi
                simpa using hbelow j hj (by omega)
          · intro i hi hik
            cases i with
            | zero => omega
            | succ j =>
                have hj : j < rest.length := by simpa using hi
                simpa using habove j hj (by omega)
      | false =>
          refine ⟨0, by simp, by omega, ?_⟩
          intro i hi _
          cases i with
          | zero => simpa using hP
          | succ j =>
              have hj : j < rest.length := by simpa using hi
              cases hQ : magicLt rest[j].hdr.identifier target with
              | false => simpa using hQ
              | true =>
                  have hmem : rest[j] ∈ rest := List.getElem_mem hj
                  have hlt := hx rest[j] hmem
                  have := magicLt_trans hlt hQ
                  rw [hP] at this
                  exact absurd this (by simp)

/-- The binary-search loop returns the partition point: if indices below
`k` are strictly below `target` and indices from `k` on are not, and the
search window `[first, first + len)` brackets `k` with enough fuel, the
loop lands exactly on `k`. -/
theorem lowerBoundAux_eq (hs : List HeaderPtr) (target : Magic) (k : Nat)
    (hbelow : ∀ i (hi : i < hs.length), i < k → magicLt hs[i].hdr.identifier target = true)
    (habove : ∀ i (hi : i < hs.length), k ≤ i → magicLt hs[i].hdr.identifier target = false) :
    ∀ (fuel first len : Nat), len ≤ fuel → first + len ≤ hs.length →
      first ≤ k → k ≤ first + len →
      lowerBoundAux hs target fuel first len = k := by
  intro fuel
  induction fuel with
  | zero =>
      intro first len hfuel _ hk1 hk2
      have hlen : len = 0 := by omega
      subst hlen
      simp only [lowerBoundAux]
      omega
  | succ fuel ih =>
      intro first len hfuel hrange hk1 hk2
      by_cases hzero : len = 0
      · subst hzero
        simp only [lowerBoundAux, if_true, eq_self_iff_true, ite_true]
        omega
      · have hpos : 0 < len := Nat.pos_of_ne_zero hzero
        have hhalf : len / 2 < len := Nat.div_lt_self hpos one_lt_two
        have hmid : first + len / 2 < hs.length := by omega
        simp only [lowerBoundAux, if_neg hzero]
        rw [List.getD_eq_getElem hs default hmid]
        cases hP : magicLt hs[first + len / 2].hdr.identifier target with
        | true =>
            simp only [if_pos rfl]
            have hmidk : first + len / 2 < k := by
              by_contra hcon
              have := habove (first + len / 2) hmid (by omega)
              rw [hP] at this
              exact absurd this (by simp)
            exact ih (first + len / 2 + 1) (len - len / 2 - 1) (by omega) (by omega)
              (by omega) (by omega)
        | false =>
            simp only [Bool.false_eq_true, if_false]
            have hkmid : k ≤ first + len / 2 := by
              by_contra hcon
              have := hbelow (first + len / 2) hmid (by omega)
              rw [hP] at this
              exact absurd this (by simp)
            exact ih first (len / 2) (by omega) (by omega) (by omega) (by omega)

end Decodeless

namespace Decodeless

/-- In a strictly sorted directory the linear `std::find_if` scan stops
exactly at the (unique) entry carrying the requested identifier. -/
theorem find?_first_of_sorted (hs : List HeaderPtr) (target : Magic)
    (hsort : hs.Pairwise (fun a b => magicLt a.hdr.identifier b.hdr.identifier = true))
    (e : HeaderPtr) (he : e ∈ hs) (hid : e.hdr.identifier = target) :
    hs.find? (fun p => p.hdr.identifier == target) = some e := by
  induction hs with
  | nil => cases he
  | cons x rest ih =>
      rw [List.pairwise_cons] at hsort
      obtain ⟨hx, hrest⟩ := hsort
      rcases List.mem_cons.mp he with rfl | hmem
      · exact List.find?_cons_of_pos _ (by simp [hid])
      · have hne : x.hdr.identifier ≠ target := by
          rw [← hid]
          exact magicLt_ne (hx e hmem)
        rw [List.find?_cons_of_neg _ (by simp [hne])]
        exact ih hrest hmem

/-- C1: in a directory whose entries are sorted ascending by identifier
with pairwise-distinct identifiers (equivalently: strictly sorted by
`magicLt`), `find` returns exactly the entry whose stored identifier
equals the requested compile-time identifier when one exists, and null
when no entry carries that identifier — and this single statement covers
both the linear-scan regime (fewer than 16 entries) and the binary-search
regime (16 or more), since the directory length is unconstrained. -/
theorem find_directory_correct (h : RootHeader) (target : Magic)
    (hsort : h.headers.Pairwise (fun a b => magicLt a.hdr.identifier b.hdr.identifier = true)) :
    (∀ e ∈ h.headers, e.hdr.identifier = target → RootHeader.find h target = some e) ∧
    ((∀ e ∈ h.headers, e.hdr.identifier ≠ target) → RootHeader.find h target = none) := by
  obtain ⟨k, hk, hbelow, habove⟩ := exists_partition h.headers target hsort
  have hlb : lowerBound h.headers target 0 h.headers.length = k :=
    lowerBoundAux_eq h.headers target k hbelow habove h.headers.length 0 h.headers.length
      (le_refl _) (by omega) (by omega) (by omega)
  constructor
  · intro e he hid
    by_cases hlen : h.headers.length < 16
    · simp only [RootHeader.find, if_pos hlen]
      exact find?_first_of_sorted _ _ hsort e he hid
    · simp only [RootHeader.find, if_neg hlen]
      obtain ⟨j, hj, hje⟩ := List.getElem_of_mem he
      have hsortidx := List.pairwise_iff_getElem.mp hsort
      have hkj : k = j := by
        have hjk : ¬ j < k := by
          intro hcon
          have hb := hbelow j hj hcon
          rw [hje, hid, magicLt_irrefl] at hb
          exact Bool.false_ne_true hb
        have hknj : ¬ k < j := by
          intro hcon
          have hklen : k < h.headers.length := by omega
          have hlt := hsortidx k j hklen hj hcon
          rw [hje, hid] at hlt
          have ha := habove k hklen (le_refl k)
          rw [hlt] at ha
          simp at ha
        omega
      rw [hlb, hkj, List.getElem?_eq_getElem hj, hje]
      simp [hid]
  · intro habsent
    by_cases hlen : h.headers.length < 16
    · simp only [RootHeader.find, if_pos hlen]
      rw [List.find?_eq_none]
      intro x hx
      simp [habsent x hx]
    · simp only [RootHeader.find, if_neg hlen]
      rw [hlb]
      rcases Nat.lt_or_ge k h.headers.length with hklen | hklen
      · rw [List.getElem?_eq_getElem hklen]
        have hne := habsent (h.headers[k]) (List.getElem_mem hklen)
        simp [hne]
      · rw [List.getElem?_eq_none hklen]

end Decodeless

namespace Decodeless

/-- Witness for C1: in the concrete 16-entry (binary-search regime) sorted
directory, looking up identifier `[10]` returns exactly the entry that
was inserted for it. -/
theorem find_directory_correct_witness :
    RootHeader.find sampleRoot [10] = some (sampleEntry 10) :=
  (find_directory_correct sampleRoot [10] (by decide)).1 (sampleEntry 10)
    (by decide) (by decide)

/-- C2: `Version::binaryCompatible(S, L)` holds iff `L` is not the invalid
sentinel, the majors agree exactly and the supported minor is at least the
loaded minor; the patch fields never influence the result; the predicate
is reflexive for non-sentinel versions, rejects a sentinel-major loaded
version unconditionally, and rejects any major mismatch in either
direction. -/
theorem version_binaryCompatible_spec :
    (∀ S L : Version, Version.binaryCompatible S L = true ↔
        (L.major ≠ Version.InvalidValue ∧ S.major = L.major ∧ S.minor ≥ L.minor)) ∧
    (∀ (S L : Version) (p q : Nat),
        Version.binaryCompatible ⟨S.major, S.minor, p⟩ ⟨L.major, L.minor, q⟩ =
          Version.binaryCompatible S L) ∧
    (∀ v : Version, v.major ≠ Version.InvalidValue →
        Version.binaryCompatible v v = true) ∧
    (∀ S L : Version, L.major = Version.InvalidValue →
        Version.binaryCompatible S L = false) ∧
    (∀ S L : Version, S.major ≠ L.major → Version.binaryCompatible S L = false) := by
  have main : ∀ S L : Version, Version.binaryCompatible S L = true ↔
      (L.major ≠ Version.InvalidValue ∧ S.major = L.major ∧ S.minor ≥ L.minor) := by
    intro S L
    simp [Version.binaryCompatible, Bool.and_eq_true, bne_iff_ne, beq_iff_eq,
      decide_eq_true_eq, and_assoc]
  refine ⟨main, ?_, ?_, ?_, ?_⟩
  · intro S L p q
    cases S
    cases L
    rfl
  · intro v hv
    exact (main v v).mpr ⟨hv, rfl, le_refl _⟩
  · intro S L hL
    cases hb : Version.binaryCompatible S L with
    | false => rfl
    | true => exact absurd hL ((main S L).mp hb).1
  · intro S L hmaj
    cases hb : Version.binaryCompatible S L with
    | false => rfl
    | true => exact absurd ((main S L).mp hb).2.1 hmaj

/-- Witness for C2: a patch difference is accepted and the invalid
sentinel is rejected, at concrete versions. -/
theorem version_binaryCompatible_spec_witness :
    Version.binaryCompatible ⟨2, 2, 1⟩ ⟨2, 2, 3⟩ = true ∧
    Version.binaryCompatible ⟨1, 1, 1⟩ Version.invalid = false :=
  ⟨(version_binaryCompatible_spec.1 ⟨2, 2, 1⟩ ⟨2, 2, 3⟩).mpr (by decide),
   version_binaryCompatible_spec.2.2.2.1 ⟨1, 1, 1⟩ Version.invalid (by decide)⟩

/-- C5: root-level `binaryCompatible()` holds iff the stored framework
version is compatible with the compile-time supported framework version
and the stored platform fingerprint equals the one freshly computed for
the current platform (word size and byte order). -/
theorem rootHeader_binaryCompatible_spec (h : RootHeader) (cur : Platform) :
    RootHeader.binaryCompatible h cur = true ↔
      (Version.binaryCompatible VersionSupported h.decodelessVersion = true ∧
       h.platformBits = PlatformBits.compute cur) := by
  simp [RootHeader.binaryCompatible, Bool.and_eq_true, beq_iff_eq]

/-- Witness for C5: the concrete root header written on the concrete
64-bit little-endian platform is binary compatible. -/
theorem rootHeader_binaryCompatible_spec_witness :
    RootHeader.binaryCompatible sampleRoot samplePlatform = true :=
  (rootHeader_binaryCompatible_spec sampleRoot samplePlatform).mpr
    ⟨by decide, by decide⟩

/-- C6: `findSupported` returns exactly the entry `find` returns when that
entry exists and its stored version is compatible with the compile-time
supported version, and null in every other case — so "absent" and
"present but version-incompatible" give the identical null result. -/
theorem findSupported_spec (h : RootHeader) (target : Magic) (vs : Version) :
    (∀ e : HeaderPtr, RootHeader.findSupported h target vs = some e ↔
        (RootHeader.find h target = some e ∧
         Version.binaryCompatible vs e.hdr.version = true)) ∧
    (RootHeader.findSupported h target vs = none ↔
        (RootHeader.find h target = none ∨
         ∃ e : HeaderPtr, RootHeader.find h target = some e ∧
           Version.binaryCompatible vs e.hdr.version = false)) := by
  unfold RootHeader.findSupported
  cases hf : RootHeader.find h target with
  | none => simp
  | some p =>
      dsimp only
      split_ifs with hc
      · constructor
        · intro e
          constructor
          · intro he
            obtain rfl : p = e := by injection he
            exact ⟨rfl, hc⟩
          · rintro ⟨he, _⟩
            exact he
        · simp [hc]
      · constructor
        · intro e
          constructor
          · intro he
            simp at he
          · rintro ⟨he, hce⟩
            obtain rfl : p = e := by injection he
            exact absurd hce hc
        · simp only [true_iff]
          exact Or.inr ⟨p, rfl, by simpa using hc⟩

/-- Witness for C6: in the concrete directory, `findSupported` of the
present entry `[10]` (stored version `1.0.0`, supported `1.1.0`) returns
that entry. -/
theorem findSupported_spec_witness :
    RootHeader.findSupported sampleRoot [10] ⟨1, 1, 0⟩ = some (sampleEntry 10) :=
  ((findSupported_spec sampleRoot [10] ⟨1, 1, 0⟩).1 (sampleEntry 10)).mpr
    ⟨find_directory_correct_witness, by decide⟩

end Decodeless

namespace Decodeless

/-- C7: `magicValid()` holds iff the stored framework-magic field equals
the fixed 16-byte framework magic constant byte for byte, and overwriting
any single byte of that stored field with a different value makes
`magicValid()` false while leaving every other field of the root header
untouched. -/
theorem magicValid_spec :
    (∀ h : RootHeader, RootHeader.magicValid h = true ↔
        h.decodelessMagic = DecodelessMagic) ∧
    (∀ (h : RootHeader) (i b : Nat),
        RootHeader.magicValid h = true → i < 16 → b ≠ DecodelessMagic.getD i 0 →
        RootHeader.magicValid (RootHeader.setMagicByte h i b) = false ∧
        (RootHeader.setMagicByte h i b).identifier = h.identifier ∧
        (RootHeader.setMagicByte h i b).decodelessVersion = h.decodelessVersion ∧
        (RootHeader.setMagicByte h i b).platformBits = h.platformBits ∧
        (RootHeader.setMagicByte h i b).headers = h.headers) := by
  have main : ∀ h : RootHeader, RootHeader.magicValid h = true ↔
      h.decodelessMagic = DecodelessMagic := by
    intro h
    simp [RootHeader.magicValid, beq_iff_eq]
  refine ⟨main, ?_⟩
  intro h i b hv hi hb
  have hm : h.decodelessMagic = DecodelessMagic := (main h).mp hv
  refine ⟨?_, rfl, rfl, rfl, rfl⟩
  simp only [RootHeader.magicValid, RootHeader.setMagicByte, hm]
  rw [beq_eq_false_iff_ne]
  intro heq
  have hlen : i < DecodelessMagic.length := by
    rw [show DecodelessMagic.length = 16 from rfl]
    exact hi
  have hset : (DecodelessMagic.set i b).getD i 0 = b := by
    rw [List.getD_eq_getElem _ 0 (by simpa using hlen)]
    exact List.getElem_set_self (h := by simpa using hlen)
  have hcong := congrArg (fun l => List.getD l i 0) heq
  simp only at hcong
  rw [hset] at hcong
  exact hb hcong

/-- Witness for C7: corrupting byte 10 of the concrete valid root header's
stored framework magic (the scenario of `TEST(Header, Magic)`) makes
`magicValid` false and leaves the other fields unchanged. -/
theorem magicValid_spec_witness :
    RootHeader.magicValid (RootHeader.setMagicByte sampleRoot 10 97) = false ∧
    (RootHeader.setMagicByte sampleRoot 10 97).identifier = sampleRoot.identifier ∧
    (RootHeader.setMagicByte sampleRoot 10 97).decodelessVersion =
      sampleRoot.decodelessVersion ∧
    (RootHeader.setMagicByte sampleRoot 10 97).platformBits = sampleRoot.platformBits ∧
    (RootHeader.setMagicByte sampleRoot 10 97).headers = sampleRoot.headers :=
  magicValid_spec.2 sampleRoot 10 97 (by decide) (by decide) (by decide)

end Decodeless

namespace Decodeless

open linear_memory_resource

/-- Neither branch of `allocate` (growth path included) ever writes
`m_begin` or `m_end`. -/
theorem allocateGrow_fixed (s : linear_memory_resource) (bytes align : Nat)
    (rr : Option Nat) :
    (allocateGrow s bytes align rr).2.mBegin = s.mBegin ∧
    (allocateGrow s bytes align rr).2.mEnd = s.mEnd := by
  cases rr <;> simp only [allocateGrow] <;> split <;> try exact ⟨rfl, rfl⟩
  split <;> exact ⟨rfl, rfl⟩

/-- A whole sequence of `allocate` calls leaves `m_begin` and `m_end`
untouched. -/
theorem runCalls_fixed (calls : List (Nat × Nat)) (s : linear_memory_resource) :
    (runCalls s calls).2.mBegin = s.mBegin ∧
    (runCalls s calls).2.mEnd = s.mEnd := by
  induction calls generalizing s with
  | nil => exact ⟨rfl, rfl⟩
  | cons c rest ih =>
      obtain ⟨b, a⟩ := c
      simp only [runCalls]
      have h1 : (allocate s b a).2.mBegin = s.mBegin ∧
          (allocate s b a).2.mEnd = s.mEnd := allocateGrow_fixed s b a none
      have h2 := ih (allocate s b a).2
      exact ⟨h2.1.trans h1.1, h2.2.trans h1.2⟩

end Decodeless

namespace Decodeless

open linear_memory_resource

/-- C3 counterexample: the claim "after a failed `allocate` the cursor and
`bytesAllocated()` equal their pre-call values" is false.  In the state
reached by the 23-byte scenario of `TEST(Allocate, Object)` (cursor 17,
capacity 23), the 4-byte align-4 request throws `std::bad_alloc`, yet
`bytesAllocated()` afterwards is 24, not the pre-call 17: the C++ stores
`m_next = result + bytes` before the overflow check and the throw leaves
that assignment in place. -/
theorem allocate_failure_counterexample :
    (allocate ⟨0, 17, 23⟩ 4 4).1 = none ∧
    bytesAllocated ⟨0, 17, 23⟩ = 17 ∧
    bytesAllocated (allocate ⟨0, 17, 23⟩ 4 4).2 = 24 := by
  decide

/-- C3 (amended): whenever `allocate` fails — in any failure mode of
`allocateGrow`, i.e. with a parent allocator that has no `reallocate()`
(`reallocResult = none`) as well as on the growth path when
`reallocate()` reported an address other than `m_begin`
(`reallocResult = some addr`, `addr ≠ m_begin`, the "would move the base
address" mode) — the call raises out-of-memory (`std::bad_alloc`) and the
arena's base address and capacity bound are unchanged, but the cursor is
not rolled back: it has already been advanced to the end of the rejected
range (aligned offset plus requested size), past `m_end`, so
`bytesAllocated()` does not return to its pre-call value. -/
theorem allocate_failure_state (s : linear_memory_resource) (bytes align : Nat)
    (rr : Option Nat)
    (hfail : (allocateGrow s bytes align rr).1 = none) :
    (allocateGrow s bytes align rr).2.mBegin = s.mBegin ∧
    (allocateGrow s bytes align rr).2.mEnd = s.mEnd ∧
    (allocateGrow s bytes align rr).2.mNext =
      s.mNext + (((2 ^ 64 - s.mNext % 2 ^ 64) % 2 ^ 64) &&& (align - 1)) + bytes ∧
    s.mEnd < (allocateGrow s bytes align rr).2.mNext := by
  have hnext : (allocateGrow s bytes align rr).2.mNext =
      s.mNext + (((2 ^ 64 - s.mNext % 2 ^ 64) % 2 ^ 64) &&& (align - 1)) + bytes := by
    cases rr <;> simp only [allocateGrow] <;> split <;> try rfl
    split <;> rfl
  have hover : s.mEnd <
      s.mNext + (((2 ^ 64 - s.mNext % 2 ^ 64) % 2 ^ 64) &&& (align - 1)) + bytes := by
    simp only [allocateGrow] at hfail
    split at hfail
    · rename_i hgt
      exact hgt
    · simp at hfail
  rw [hnext]
  exact ⟨(allocateGrow_fixed s bytes align rr).1,
    (allocateGrow_fixed s bytes align rr).2, rfl, hover⟩

/-- Witness for C3's amended statement, exercising the growth-path
failure mode: at cursor 17 of the 23-byte arena whose base is 0, the
4-byte align-4 request overflows and the parent's `reallocate` reports
the moved base address 5, so the call fails — leaving base 0 and capacity
23 alone but the cursor at 24. -/
theorem allocate_failure_state_witness :
    (allocateGrow ⟨0, 17, 23⟩ 4 4 (some 5)).2.mBegin = 0 ∧
    (allocateGrow ⟨0, 17, 23⟩ 4 4 (some 5)).2.mEnd = 23 ∧
    (allocateGrow ⟨0, 17, 23⟩ 4 4 (some 5)).2.mNext =
      17 + (((2 ^ 64 - 17 % 2 ^ 64) % 2 ^ 64) &&& (4 - 1)) + 4 ∧
    23 < (allocateGrow ⟨0, 17, 23⟩ 4 4 (some 5)).2.mNext :=
  allocate_failure_state ⟨0, 17, 23⟩ 4 4 (some 5) (by decide)

end Decodeless

namespace Decodeless

open linear_memory_resource

/-- C8: `reset()` rewinds the cursor to the start of the buffer without
releasing or changing the backing buffer, and replaying any sequence of
`allocate` calls after a `reset()` of a resource that started fresh
(cursor at the buffer start) reproduces the identical per-call results:
the same returned offsets and the same `bytesAllocated()` after each
corresponding call. -/
theorem reset_replay (s : linear_memory_resource) (calls : List (Nat × Nat))
    (hfresh : s.mNext = s.mBegin) :
    runCalls (reset (runCalls s calls).2) calls = runCalls s calls ∧
    (∀ t : linear_memory_resource,
        (reset t).mBegin = t.mBegin ∧ (reset t).mEnd = t.mEnd ∧
        (reset t).mNext = t.mBegin) := by
  refine ⟨?_, fun t => ⟨rfl, rfl, rfl⟩⟩
  have hfix := runCalls_fixed calls s
  have hrs : reset (runCalls s calls).2 = s := by
    cases s with
    | mk b n e =>
        have h1 := hfix.1
        have h2 := hfix.2
        show (⟨(runCalls ⟨b, n, e⟩ calls).2.mBegin,
              (runCalls ⟨b, n, e⟩ calls).2.mBegin,
              (runCalls ⟨b, n, e⟩ calls).2.mEnd⟩ : linear_memory_resource) = ⟨b, n, e⟩
        rw [h1, h2]
        have hnb : n = b := hfresh
        rw [hnb]
  rw [hrs]

/-- Witness for C8: replaying the three successful allocations of the
23-byte scenario after a reset reproduces the identical trace. -/
theorem reset_replay_witness :
    runCalls (reset (runCalls (construct 0 23) [(1, 1), (4, 4), (8, 8)]).2)
        [(1, 1), (4, 4), (8, 8)] =
      runCalls (construct 0 23) [(1, 1), (4, 4), (8, 8)] :=
  (reset_replay (construct 0 23) [(1, 1), (4, 4), (8, 8)] (by decide)).1

/-- C9: `deallocate(p, bytes)` changes nothing observable — the state, and
with it `bytesAllocated()`, `bytesReserved()`, the arena base and the
cursor, are identical before and after — and `linear_allocator`'s
`deallocate`, which forwards to it, is equally inert. -/
theorem deallocate_noop (s : linear_memory_resource) (p bytes : Nat) :
    deallocate s p bytes = s ∧
    bytesAllocated (deallocate s p bytes) = bytesAllocated s ∧
    bytesReserved (deallocate s p bytes) = bytesReserved s ∧
    arena (deallocate s p bytes) = arena s ∧
    (deallocate s p bytes).mNext = s.mNext ∧
    linear_allocator.deallocate s p bytes = s :=
  ⟨rfl, rfl, rfl, rfl, rfl, rfl⟩

/-- Witness for C9 at a concrete state and arguments. -/
theorem deallocate_noop_witness :
    deallocate ⟨0, 17, 23⟩ 4 4 = (⟨0, 17, 23⟩ : linear_memory_resource) :=
  (deallocate_noop ⟨0, 17, 23⟩ 4 4).1

/-- C10: `bytesReserved()` and the arena base address reported by
`arena()` are fixed at construction: no `allocate` call — including one
that takes the growth path, whatever address the parent's `reallocate`
reports — and no `deallocate` or `reset` call modifies `m_begin` or
`m_end`; in particular a successful in-place growth leaves the recorded
capacity unchanged, so later overflow checks still compare against the
original buffer end, and the invariant extends over arbitrary call
sequences. -/
theorem reserved_and_arena_fixed (s : linear_memory_resource) :
    (∀ (bytes align : Nat) (rr : Option Nat),
        (allocateGrow s bytes align rr).2.mBegin = s.mBegin ∧
        (allocateGrow s bytes align rr).2.mEnd = s.mEnd ∧
        bytesReserved (allocateGrow s bytes align rr).2 = bytesReserved s ∧
        arena (allocateGrow s bytes align rr).2 = arena s) ∧
    (∀ p b : Nat, (deallocate s p b).mBegin = s.mBegin ∧
        (deallocate s p b).mEnd = s.mEnd) ∧
    ((reset s).mBegin = s.mBegin ∧ (reset s).mEnd = s.mEnd) ∧
    (∀ calls : List (Nat × Nat),
        (runCalls s calls).2.mBegin = s.mBegin ∧
        (runCalls s calls).2.mEnd = s.mEnd ∧
        bytesReserved (runCalls s calls).2 = bytesReserved s ∧
        arena (runCalls s calls).2 = arena s) := by
  refine ⟨?_, fun p b => ⟨rfl, rfl⟩, ⟨rfl, rfl⟩, ?_⟩
  · intro bytes align rr
    obtain ⟨h1, h2⟩ := allocateGrow_fixed s bytes align rr
    exact ⟨h1, h2, by simp [bytesReserved, h1, h2], by simp [arena, h1]⟩
  · intro calls
    obtain ⟨h1, h2⟩ := runCalls_fixed calls s
    exact ⟨h1, h2, by simp [bytesReserved, h1, h2], by simp [arena, h1]⟩

/-- Witness for C10: a growth-path allocation whose in-place `reallocate`
returned the original base (address 0) succeeds but leaves the recorded
capacity at 23 and the base at 0. -/
theorem reserved_and_arena_fixed_witness :
    (allocateGrow ⟨0, 17, 23⟩ 4 4 (some 0)).2.mBegin = 0 ∧
    (allocateGrow ⟨0, 17, 23⟩ 4 4 (some 0)).2.mEnd = 23 ∧
    bytesReserved (allocateGrow ⟨0, 17, 23⟩ 4 4 (some 0)).2 =
      bytesReserved (⟨0, 17, 23⟩ : linear_memory_resource) ∧
    arena (allocateGrow ⟨0, 17, 23⟩ 4 4 (some 0)).2 =
      arena (⟨0, 17, 23⟩ : linear_memory_resource) :=
  (reserved_and_arena_fixed ⟨0, 17, 23⟩).1 4 4 (some 0)

end Decodeless
